import Mathlib

/-!
Shallow embedding of the loan-capacity calculation engine from
`src/components/LoanCapacity/LoanCapacity.tsx`.

Numbers are modelled by `ℚ` (the source uses IEEE doubles; the spec and the
properties are stated over exact arithmetic).  `totalMonths` is modelled by
`ℤ`, matching the `totalMonths <= 0` guards of the source.  JavaScript `for`
loops are modelled by structural recursion carrying the same mutable state
(discount factor, running sum, month counter) explicitly.
-/

namespace LoanCapacity

/-- `type RatePeriod = { years: number; rate: number }`.  The spec's data
model declares `years` a positive integer, so it is modelled by `ℕ`. -/
structure RatePeriod where
  years : ℕ
  rate : ℚ
deriving Repr, DecidableEq

/-- `type AmortizationRow` from the source. -/
structure AmortizationRow where
  month : ℕ
  capitalBefore : ℚ
  interest : ℚ
  amortization : ℚ
  installment : ℚ
  capitalAfter : ℚ
deriving Repr, DecidableEq

/-- `type RateMode = "single" | "multi"`. -/
inductive RateMode where
  | single
  | multi
deriving Repr, DecidableEq

/-- `const DEBT_TO_INCOME_RATIO = 1 / 3`. -/
def DEBT_TO_INCOME_RATIO : ℚ := 1 / 3

/-- `const toMonthlyRate = (annualRate) => (annualRate > 0 ? annualRate / 100 / 12 : 0)`. -/
def toMonthlyRate (annualRate : ℚ) : ℚ :=
  if annualRate > 0 then annualRate / 100 / 12 else 0

/-- `const sumPeriodYears = (periods) => periods.reduce((sum, p) => sum + (Number(p.years) || 0), 0)`. -/
def sumPeriodYears (periods : List RatePeriod) : ℕ :=
  periods.foldl (fun sum p => sum + p.years) 0

/-- `const calculateMaxMonthlyInstallment = (monthlyIncome) =>
      (monthlyIncome > 0 ? monthlyIncome * DEBT_TO_INCOME_RATIO : 0)`. -/
def calculateMaxMonthlyInstallment (monthlyIncome : ℚ) : ℚ :=
  if monthlyIncome > 0 then monthlyIncome * DEBT_TO_INCOME_RATIO else 0

/-- `calculateLoanPrincipalWithSingleRate` from the source.
`Math.pow(1 + monthlyRate, -totalMonths)` is the integer power
`(1 + monthlyRate) ^ (-totalMonths)` over `ℚ`. -/
def calculateLoanPrincipalWithSingleRate
    (maxInstallment annualRate : ℚ) (totalMonths : ℤ) : ℚ :=
  if totalMonths ≤ 0 ∨ maxInstallment ≤ 0 then 0
  else
    let monthlyRate := toMonthlyRate annualRate
    if monthlyRate = 0 then maxInstallment * totalMonths
    else
      let denominator := monthlyRate / (1 - (1 + monthlyRate) ^ (-totalMonths))
      maxInstallment / denominator

/-- The inner `for (let m = 0; m < months; m++)` loop of
`calculateLoanPrincipalWithMultipleRates`.  State is
`(pvFactorSum, discountFactor, monthsCount)`; the fuel argument is the
remaining trip count `months - m`, and the loop breaks as soon as
`monthsCount >= totalMonths`. -/
def multiRateInner (monthlyRate : ℚ) :
    ℕ → ℚ × ℚ × ℕ → ℤ → ℚ × ℚ × ℕ
  | 0, st, _ => st
  | m + 1, (pv, df, cnt), total =>
      if (cnt : ℤ) ≥ total then (pv, df, cnt)
      else multiRateInner monthlyRate m
        (pv + df / (1 + monthlyRate), df / (1 + monthlyRate), cnt + 1) total

/-- The outer `for (const period of periods)` loop of
`calculateLoanPrincipalWithMultipleRates`, with its
`if (monthsCount >= totalMonths) break`. -/
def multiRateLoop : List RatePeriod → ℚ × ℚ × ℕ → ℤ → ℚ × ℚ × ℕ
  | [], st, _ => st
  | p :: rest, st, total =>
      let st' := multiRateInner (toMonthlyRate p.rate) (p.years * 12) st total
      if (st'.2.2 : ℤ) ≥ total then st'
      else multiRateLoop rest st' total

/-- `calculateLoanPrincipalWithMultipleRates` from the source:
guards, then the two nested loops starting from
`pvFactorSum = 0`, `discountFactor = 1`, `monthsCount = 0`, and finally
`maxInstallment * pvFactorSum`. -/
def calculateLoanPrincipalWithMultipleRates
    (maxInstallment : ℚ) (periods : List RatePeriod) (totalMonths : ℤ) : ℚ :=
  if totalMonths ≤ 0 ∨ maxInstallment ≤ 0 ∨ periods = [] then 0
  else maxInstallment * (multiRateLoop periods (0, 1, 0) totalMonths).1

/-- The inner `for (let m = 0; m < months && monthIdx < totalMonths; m++)`
loop of `buildMonthlyRatesArray` (multi branch).  Returns the pushed chunk
of rates together with the new `monthIdx`. -/
def multiRatesInner (rate : ℚ) : ℕ → ℕ → ℤ → List ℚ × ℕ
  | 0, idx, _ => ([], idx)
  | m + 1, idx, total =>
      if (idx : ℤ) < total then
        let r := multiRatesInner rate m (idx + 1) total
        (rate :: r.1, r.2)
      else ([], idx)

/-- The outer `for (const period of periods)` loop of
`buildMonthlyRatesArray` (multi branch), with its
`if (monthIdx >= totalMonths) break`. -/
def multiRatesLoop : List RatePeriod → ℕ → ℤ → List ℚ
  | [], _, _ => []
  | p :: rest, idx, total =>
      let r := multiRatesInner (toMonthlyRate p.rate) (p.years * 12) idx total
      if (r.2 : ℤ) ≥ total then r.1
      else r.1 ++ multiRatesLoop rest r.2 total

/-- `buildMonthlyRatesArray` from the source.  The single branch
(`monthlyRates.length = totalMonths; monthlyRates.fill(rate)`) is a list of
`totalMonths` copies of the monthly rate. -/
def buildMonthlyRatesArray (rateMode : RateMode) (periods : List RatePeriod)
    (singleRate : ℚ) (totalMonths : ℤ) : List ℚ :=
  match rateMode with
  | .multi => multiRatesLoop periods 0 totalMonths
  | .single => List.replicate totalMonths.toNat (toMonthlyRate singleRate)

/-- The `for (let month = 1; month <= totalMonths; month++)` loop of
`buildAmortizationTable`.  The fuel argument is the remaining trip count
`totalMonths - month + 1`; `monthlyRates[month - 1] || 0` is
`rates.getD (month - 1) 0`; the loop breaks after pushing a row whose
`capitalAfter <= 0`. -/
def amortLoop (installment : ℚ) (rates : List ℚ) :
    ℕ → ℕ → ℚ → List AmortizationRow
  | _, 0, _ => []
  | month, fuel + 1, remainingCapital =>
      let capitalBefore := remainingCapital
      let rate := rates.getD (month - 1) 0
      let interest := capitalBefore * rate
      let amortization := installment - interest
      let capitalAfter := max (capitalBefore - amortization) 0
      let row : AmortizationRow :=
        ⟨month, capitalBefore, interest, amortization, installment, capitalAfter⟩
      if capitalAfter ≤ 0 then [row]
      else row :: amortLoop installment rates (month + 1) fuel capitalAfter

/-- `buildAmortizationTable` from the source. -/
def buildAmortizationTable (maxLoanPrincipal maxInstallment : ℚ)
    (monthlyRates : List ℚ) (totalMonths : ℤ) : List AmortizationRow :=
  if maxLoanPrincipal ≤ 0 ∨ totalMonths ≤ 0 then []
  else amortLoop maxInstallment monthlyRates 1 totalMonths.toNat maxLoanPrincipal

/-- The component's derived flag
`usePeriods = rateMode === "multi" && periodsActive` where
`periodsActive = ratePeriods.length > 0`. -/
def usePeriods (rateMode : RateMode) (ratePeriods : List RatePeriod) : Bool :=
  rateMode == RateMode.multi && !ratePeriods.isEmpty

/-- `periodsYearsTotal = usePeriods ? sumPeriodYears(ratePeriods) : 0`. -/
def periodsYearsTotal (rateMode : RateMode) (ratePeriods : List RatePeriod) : ℕ :=
  if usePeriods rateMode ratePeriods then sumPeriodYears ratePeriods else 0

/-- `periodsMismatch = usePeriods && periodsYearsTotal !== durationYears`. -/
def periodsMismatch (rateMode : RateMode) (ratePeriods : List RatePeriod)
    (durationYears : ℕ) : Bool :=
  usePeriods rateMode ratePeriods
    && (periodsYearsTotal rateMode ratePeriods != durationYears)

/-- The shared branch condition `usePeriods && !periodsMismatch` of the
component, read as the effective rate mode: it selects between the multi-
and single-rate computations and is the mode string passed to
`buildMonthlyRatesArray`. -/
def componentEffectiveMode (rateMode : RateMode) (ratePeriods : List RatePeriod)
    (durationYears : ℕ) : RateMode :=
  if usePeriods rateMode ratePeriods
      && !periodsMismatch rateMode ratePeriods durationYears
  then RateMode.multi else RateMode.single

/-- The component's `maxLoanPrincipal` memo: guard on
`maxMonthlyInstallment <= 0`, then the `usePeriods && !periodsMismatch`
branch between the two capacity functions, with `totalMonths = durationYears * 12`. -/
def componentMaxLoanPrincipal (rateMode : RateMode) (ratePeriods : List RatePeriod)
    (interestRate monthlyIncome : ℚ) (durationYears : ℕ) : ℚ :=
  let maxMonthlyInstallment := calculateMaxMonthlyInstallment monthlyIncome
  if maxMonthlyInstallment ≤ 0 then 0
  else if usePeriods rateMode ratePeriods
      && !periodsMismatch rateMode ratePeriods durationYears then
    calculateLoanPrincipalWithMultipleRates maxMonthlyInstallment ratePeriods
      (durationYears * 12)
  else
    calculateLoanPrincipalWithSingleRate maxMonthlyInstallment interestRate
      (durationYears * 12)

/-- The component's `monthlyRates` memo:
`buildMonthlyRatesArray(usePeriods && !periodsMismatch ? "multi" : "single",
ratePeriods, interestRate, totalMonths)`. -/
def componentMonthlyRates (rateMode : RateMode) (ratePeriods : List RatePeriod)
    (interestRate : ℚ) (durationYears : ℕ) : List ℚ :=
  buildMonthlyRatesArray
    (if usePeriods rateMode ratePeriods
        && !periodsMismatch rateMode ratePeriods durationYears
     then RateMode.multi else RateMode.single)
    ratePeriods interestRate (durationYears * 12)

/-! ### Specification-side derived notions used to state the claims -/

/-- The period list flattened to one monthly rate per month: each period
contributes `years * 12` copies of its monthly-equivalent rate. -/
def flatRates (periods : List RatePeriod) : List ℚ :=
  periods.flatMap (fun p => List.replicate (p.years * 12) (toMonthlyRate p.rate))

/-- Total number of months covered by a period list. -/
def sumPeriodMonths (periods : List RatePeriod) : ℕ :=
  (periods.map (fun p => p.years * 12)).sum

/-- The sequence of monthly discount factors generated by a rate sequence:
the factor starts at `df`, and each month is divided by `1 + rate of that
month`, carrying over from month to month. -/
def discountFactors : ℚ → List ℚ → List ℚ
  | _, [] => []
  | df, r :: rs => (df / (1 + r)) :: discountFactors (df / (1 + r)) rs

end LoanCapacity

namespace LoanCapacity

/-! ### C5: affordability function -/

/-- C5: for all monthlyIncome, the affordability function returns exactly
`monthlyIncome / 3` when `monthlyIncome > 0` and `0` when `monthlyIncome <= 0`. -/
theorem calculateMaxMonthlyInstallment_spec (monthlyIncome : ℚ) :
    (0 < monthlyIncome →
      calculateMaxMonthlyInstallment monthlyIncome = monthlyIncome / 3) ∧
    (monthlyIncome ≤ 0 → calculateMaxMonthlyInstallment monthlyIncome = 0) := by
  refine ⟨fun h => ?_, fun h => ?_⟩
  · simp only [calculateMaxMonthlyInstallment, DEBT_TO_INCOME_RATIO, if_pos h]
    ring
  · simp only [calculateMaxMonthlyInstallment, if_neg (not_lt.mpr h)]

/-- Witness for C5 at `monthlyIncome = 2600`. -/
theorem calculateMaxMonthlyInstallment_spec_witness :
    0 < (2600 : ℚ) ∧ calculateMaxMonthlyInstallment 2600 = 2600 / 3 :=
  ⟨by norm_num, (calculateMaxMonthlyInstallment_spec 2600).1 (by norm_num)⟩

/-! ### C1: single-rate capacity function -/

/-- C1: the single-rate capacity function returns 0 when `totalMonths <= 0`
or `maxInstallment <= 0`; otherwise with monthly rate `r = annualRate/100/12`
when `annualRate > 0` and `r = 0` otherwise, it returns
`maxInstallment * totalMonths` when `r = 0` (in particular at rate 0 the
result equals `maxInstallment * totalMonths` exactly) and
`maxInstallment / (r / (1 - (1+r)^(-totalMonths)))` when `r > 0`. -/
theorem calculateLoanPrincipalWithSingleRate_spec
    (maxInstallment annualRate : ℚ) (totalMonths : ℤ) :
    (totalMonths ≤ 0 ∨ maxInstallment ≤ 0 →
      calculateLoanPrincipalWithSingleRate maxInstallment annualRate totalMonths = 0) ∧
    (0 < totalMonths → 0 < maxInstallment → annualRate ≤ 0 →
      toMonthlyRate annualRate = 0 ∧
      calculateLoanPrincipalWithSingleRate maxInstallment annualRate totalMonths
        = maxInstallment * totalMonths) ∧
    (0 < totalMonths → 0 < maxInstallment → 0 < annualRate →
      toMonthlyRate annualRate = annualRate / 100 / 12 ∧
      calculateLoanPrincipalWithSingleRate maxInstallment annualRate totalMonths
        = maxInstallment /
            (annualRate / 100 / 12 /
              (1 - (1 + annualRate / 100 / 12) ^ (-totalMonths)))) := by
  refine ⟨fun h => ?_, fun ht hm hr => ?_, fun ht hm hr => ?_⟩
  · simp only [calculateLoanPrincipalWithSingleRate, if_pos h]
  · have hrate : toMonthlyRate annualRate = 0 := by
      simp only [toMonthlyRate, if_neg (not_lt.mpr hr)]
    refine ⟨hrate, ?_⟩
    simp only [calculateLoanPrincipalWithSingleRate,
      if_neg (by push_neg; exact ⟨ht, hm⟩ : ¬(totalMonths ≤ 0 ∨ maxInstallment ≤ 0)),
      hrate, if_pos rfl, ite_true]
  · have hrate : toMonthlyRate annualRate = annualRate / 100 / 12 := by
      simp only [toMonthlyRate, if_pos hr]
    refine ⟨hrate, ?_⟩
    have hne : annualRate / 100 / 12 ≠ 0 := by positivity
    simp only [calculateLoanPrincipalWithSingleRate,
      if_neg (by push_neg; exact ⟨ht, hm⟩ : ¬(totalMonths ≤ 0 ∨ maxInstallment ≤ 0)),
      hrate, if_neg hne]

/-- Witness for C1 at `maxInstallment = 100`, `annualRate = 0`, `totalMonths = 12`. -/
theorem calculateLoanPrincipalWithSingleRate_spec_witness :
    0 < (12 : ℤ) ∧ 0 < (100 : ℚ) ∧ (0 : ℚ) ≤ 0 ∧
    calculateLoanPrincipalWithSingleRate 100 0 12 = 100 * ((12 : ℤ) : ℚ) :=
  ⟨by decide, by norm_num, le_refl 0,
    ((calculateLoanPrincipalWithSingleRate_spec 100 0 12).2.1
      (by decide) (by norm_num) (le_refl 0)).2⟩

/-! ### C10: negative annual rates behave like rate 0 -/

/-- C10: for every `annualRate < 0` the monthly-rate conversion returns 0,
the single-rate capacity function behaves exactly as at rate 0 (returning
`maxInstallment * totalMonths` when the guards pass), and the single-mode
rate-vector expansion fills every month with rate 0. -/
theorem negativeRate_spec (annualRate : ℚ) (maxInstallment : ℚ)
    (totalMonths : ℤ) (periods : List RatePeriod) (h : annualRate < 0) :
    toMonthlyRate annualRate = 0 ∧
    calculateLoanPrincipalWithSingleRate maxInstallment annualRate totalMonths
      = calculateLoanPrincipalWithSingleRate maxInstallment 0 totalMonths ∧
    (0 < totalMonths → 0 < maxInstallment →
      calculateLoanPrincipalWithSingleRate maxInstallment annualRate totalMonths
        = maxInstallment * totalMonths) ∧
    buildMonthlyRatesArray RateMode.single periods annualRate totalMonths
      = List.replicate totalMonths.toNat 0 := by
  have hrate : toMonthlyRate annualRate = 0 := by
    simp only [toMonthlyRate, if_neg (not_lt.mpr h.le)]
  have hzero : toMonthlyRate 0 = 0 := by simp [toMonthlyRate]
  refine ⟨hrate, ?_, fun ht hm => ?_, ?_⟩
  · simp only [calculateLoanPrincipalWithSingleRate, hrate, hzero]
  · exact ((calculateLoanPrincipalWithSingleRate_spec maxInstallment annualRate
      totalMonths).2.1 ht hm h.le).2
  · simp only [buildMonthlyRatesArray, hrate]

/-- Witness for C10 at `annualRate = -1`, `maxInstallment = 50`,
`totalMonths = 24`, empty period list. -/
theorem negativeRate_spec_witness :
    (-1 : ℚ) < 0 ∧
    (toMonthlyRate (-1) = 0 ∧
     calculateLoanPrincipalWithSingleRate 50 (-1) 24
       = calculateLoanPrincipalWithSingleRate 50 0 24 ∧
     (0 < (24 : ℤ) → 0 < (50 : ℚ) →
       calculateLoanPrincipalWithSingleRate 50 (-1) 24 = 50 * ((24 : ℤ) : ℚ)) ∧
     buildMonthlyRatesArray RateMode.single [] (-1) 24
       = List.replicate (24 : ℤ).toNat 0) :=
  ⟨by norm_num, negativeRate_spec (-1) 50 24 [] (by norm_num)⟩

end LoanCapacity

namespace LoanCapacity

/-! ### Amortization-loop lemmas (C3, C6) -/

/-- Default row used with `List.getD` to index into amortization tables. -/
def defaultRow : AmortizationRow := ⟨0, 0, 0, 0, 0, 0⟩

/-- The per-row arithmetic relations of the amortization builder. -/
def rowInvariant (installment : ℚ) (rates : List ℚ) (row : AmortizationRow) : Prop :=
  row.installment = installment ∧
  row.interest = row.capitalBefore * rates.getD (row.month - 1) 0 ∧
  row.amortization = installment - row.interest ∧
  row.capitalAfter = max (row.capitalBefore - row.amortization) 0

/-- One unfolding step of `amortLoop`. -/
theorem amortLoop_succ (installment : ℚ) (rates : List ℚ) (month fuel : ℕ) (cap : ℚ) :
    amortLoop installment rates month (fuel + 1) cap =
      if max (cap - (installment - cap * rates.getD (month - 1) 0)) 0 ≤ 0 then
        [⟨month, cap, cap * rates.getD (month - 1) 0,
          installment - cap * rates.getD (month - 1) 0, installment,
          max (cap - (installment - cap * rates.getD (month - 1) 0)) 0⟩]
      else
        ⟨month, cap, cap * rates.getD (month - 1) 0,
          installment - cap * rates.getD (month - 1) 0, installment,
          max (cap - (installment - cap * rates.getD (month - 1) 0)) 0⟩ ::
          amortLoop installment rates (month + 1) fuel
            (max (cap - (installment - cap * rates.getD (month - 1) 0)) 0) := rfl

/-- Every row the loop pushes satisfies the per-row arithmetic relations. -/
theorem rowInvariant_of_mem_amortLoop (installment : ℚ) (rates : List ℚ) :
    ∀ (fuel month : ℕ) (cap : ℚ) (row : AmortizationRow),
      row ∈ amortLoop installment rates month fuel cap →
      rowInvariant installment rates row := by
  intro fuel
  induction fuel with
  | zero => intro month cap row hrow; simp [amortLoop] at hrow
  | succ n ih =>
    intro month cap row hrow
    rw [amortLoop_succ] at hrow
    split at hrow
    · rw [List.mem_singleton] at hrow
      subst hrow
      exact ⟨rfl, rfl, rfl, rfl⟩
    · rcases List.mem_cons.mp hrow with hrow | hrow
      · subst hrow
        exact ⟨rfl, rfl, rfl, rfl⟩
      · exact ih (month + 1) _ row hrow

/-- The loop produces at most `fuel` rows. -/
theorem amortLoop_length_le (installment : ℚ) (rates : List ℚ) :
    ∀ (fuel month : ℕ) (cap : ℚ),
      (amortLoop installment rates month fuel cap).length ≤ fuel := by
  intro fuel
  induction fuel with
  | zero => intro month cap; simp [amortLoop]
  | succ n ih =>
    intro month cap
    rw [amortLoop_succ]
    split
    · simp
    · simpa using ih (month + 1) _

/-- Row `i` of the loop's output carries month number `month + i`. -/
theorem amortLoop_month (installment : ℚ) (rates : List ℚ) :
    ∀ (fuel month : ℕ) (cap : ℚ) (i : ℕ),
      i < (amortLoop installment rates month fuel cap).length →
      ((amortLoop installment rates month fuel cap).getD i defaultRow).month
        = month + i := by
  intro fuel
  induction fuel with
  | zero => intro month cap i hi; simp [amortLoop] at hi
  | succ n ih =>
    intro month cap i hi
    rw [amortLoop_succ] at hi ⊢
    by_cases hc : max (cap - (installment - cap * rates.getD (month - 1) 0)) 0 ≤ 0
    · rw [if_pos hc] at hi ⊢
      rw [List.length_singleton] at hi
      interval_cases i
      simp
    · rw [if_neg hc] at hi ⊢
      match i with
      | 0 => simp
      | j + 1 =>
        rw [List.length_cons, Nat.add_lt_add_iff_right] at hi
        rw [List.getD_cons_succ]
        rw [ih (month + 1) _ j hi]
        omega

/-- The first row's opening balance is the loop's starting capital. -/
theorem amortLoop_head (installment : ℚ) (rates : List ℚ)
    (fuel month : ℕ) (cap : ℚ)
    (h : 0 < (amortLoop installment rates month fuel cap).length) :
    ((amortLoop installment rates month fuel cap).getD 0 defaultRow).capitalBefore
      = cap := by
  match fuel with
  | 0 => simp [amortLoop] at h
  | n + 1 =>
    rw [amortLoop_succ]
    split
    · simp
    · simp

/-- Row `i + 1`'s opening balance is row `i`'s closing balance. -/
theorem amortLoop_chain (installment : ℚ) (rates : List ℚ) :
    ∀ (fuel month : ℕ) (cap : ℚ) (i : ℕ),
      i + 1 < (amortLoop installment rates month fuel cap).length →
      ((amortLoop installment rates month fuel cap).getD (i + 1) defaultRow).capitalBefore
        = ((amortLoop installment rates month fuel cap).getD i defaultRow).capitalAfter := by
  intro fuel
  induction fuel with
  | zero => intro month cap i hi; simp [amortLoop] at hi
  | succ n ih =>
    intro month cap i hi
    rw [amortLoop_succ] at hi ⊢
    by_cases hc : max (cap - (installment - cap * rates.getD (month - 1) 0)) 0 ≤ 0
    · rw [if_pos hc] at hi
      rw [List.length_singleton] at hi
      omega
    · rw [if_neg hc] at hi ⊢
      rw [List.length_cons, Nat.add_lt_add_iff_right] at hi
      match i with
      | 0 =>
        rw [List.getD_cons_succ, List.getD_cons_zero]
        exact amortLoop_head installment rates n (month + 1) _ hi
      | j + 1 =>
        rw [List.getD_cons_succ, List.getD_cons_succ]
        exact ih (month + 1) _ j hi

/-- Every row except the last has a strictly positive closing balance: the
loop stops immediately after the first row whose `capitalAfter ≤ 0`. -/
theorem amortLoop_stop (installment : ℚ) (rates : List ℚ) :
    ∀ (fuel month : ℕ) (cap : ℚ) (i : ℕ),
      i + 1 < (amortLoop installment rates month fuel cap).length →
      0 < ((amortLoop installment rates month fuel cap).getD i defaultRow).capitalAfter := by
  intro fuel
  induction fuel with
  | zero => intro month cap i hi; simp [amortLoop] at hi
  | succ n ih =>
    intro month cap i hi
    rw [amortLoop_succ] at hi ⊢
    by_cases hc : max (cap - (installment - cap * rates.getD (month - 1) 0)) 0 ≤ 0
    · rw [if_pos hc] at hi
      rw [List.length_singleton] at hi
      omega
    · rw [if_neg hc] at hi ⊢
      rw [List.length_cons, Nat.add_lt_add_iff_right] at hi
      match i with
      | 0 =>
        rw [List.getD_cons_zero]
        exact lt_of_not_le hc
      | j + 1 =>
        rw [List.getD_cons_succ]
        exact ih (month + 1) _ j hi

end LoanCapacity

namespace LoanCapacity

/-! ### C3: amortization table row invariants -/

/-- C3: every row `k = i + 1` of the amortization table satisfies
`interest = capitalBefore * monthlyRates[k-1]` (rate 0 when out of range),
`amortization = installment - interest`,
`capitalAfter = max (capitalBefore - amortization) 0`; row 1's
`capitalBefore` is the principal, and row `k+1`'s `capitalBefore` is row
`k`'s `capitalAfter`. -/
theorem buildAmortizationTable_rows (principal installment : ℚ)
    (rates : List ℚ) (totalMonths : ℤ) (i : ℕ)
    (hi : i < (buildAmortizationTable principal installment rates totalMonths).length) :
    ((buildAmortizationTable principal installment rates totalMonths).getD i
        defaultRow).month = i + 1 ∧
    ((buildAmortizationTable principal installment rates totalMonths).getD i
        defaultRow).installment = installment ∧
    ((buildAmortizationTable principal installment rates totalMonths).getD i
        defaultRow).interest
      = ((buildAmortizationTable principal installment rates totalMonths).getD i
          defaultRow).capitalBefore * rates.getD i 0 ∧
    ((buildAmortizationTable principal installment rates totalMonths).getD i
        defaultRow).amortization
      = installment - ((buildAmortizationTable principal installment rates
          totalMonths).getD i defaultRow).interest ∧
    ((buildAmortizationTable principal installment rates totalMonths).getD i
        defaultRow).capitalAfter
      = max (((buildAmortizationTable principal installment rates totalMonths).getD i
            defaultRow).capitalBefore
          - ((buildAmortizationTable principal installment rates totalMonths).getD i
            defaultRow).amortization) 0 ∧
    (i = 0 →
      ((buildAmortizationTable principal installment rates totalMonths).getD i
          defaultRow).capitalBefore = principal) ∧
    (i + 1 < (buildAmortizationTable principal installment rates totalMonths).length →
      ((buildAmortizationTable principal installment rates totalMonths).getD (i + 1)
          defaultRow).capitalBefore
        = ((buildAmortizationTable principal installment rates totalMonths).getD i
            defaultRow).capitalAfter) := by
  by_cases hg : principal ≤ 0 ∨ totalMonths ≤ 0
  · simp only [buildAmortizationTable, if_pos hg, List.length_nil] at hi
    omega
  · simp only [buildAmortizationTable, if_neg hg] at hi ⊢
    have hmonth := amortLoop_month installment rates totalMonths.toNat 1 principal i hi
    have hmem : (amortLoop installment rates 1 totalMonths.toNat principal).getD i
        defaultRow ∈ amortLoop installment rates 1 totalMonths.toNat principal := by
      rw [List.getD_eq_getElem _ defaultRow hi]
      exact List.getElem_mem hi
    obtain ⟨hinst, hint, hamort, hafter⟩ :=
      rowInvariant_of_mem_amortLoop installment rates totalMonths.toNat 1 principal _ hmem
    refine ⟨by omega, hinst, ?_, hamort, hafter, fun h0 => ?_, fun hsucc => ?_⟩
    · rw [hint, hmonth]
      congr 2
      omega
    · subst h0
      exact amortLoop_head installment rates totalMonths.toNat 1 principal hi
    · exact amortLoop_chain installment rates totalMonths.toNat 1 principal i hsucc

/-- Witness for C3: the balance-chaining conjunct at
`principal = 100`, `installment = 60`, `rates = [0, 0]`, `totalMonths = 2`,
row index 0. -/
theorem buildAmortizationTable_rows_witness :
    ((buildAmortizationTable 100 60 [0, 0] 2).getD 1 defaultRow).capitalBefore
      = ((buildAmortizationTable 100 60 [0, 0] 2).getD 0 defaultRow).capitalAfter :=
  (buildAmortizationTable_rows 100 60 [0, 0] 2 0
      (by norm_num [buildAmortizationTable, amortLoop])).2.2.2.2.2.2
    (by norm_num [buildAmortizationTable, amortLoop])

/-! ### C6: amortization table shape -/

/-- C6: the builder returns an empty table when `principal <= 0` or
`totalMonths <= 0`; the table never has more than `totalMonths` rows; every
row except the last has `capitalAfter > 0` (iteration stops immediately
after the first row whose `capitalAfter <= 0`); hence a full-length table
has no early row whose `capitalAfter` reaches 0. -/
theorem buildAmortizationTable_shape (principal installment : ℚ)
    (rates : List ℚ) (totalMonths : ℤ) :
    (principal ≤ 0 ∨ totalMonths ≤ 0 →
      buildAmortizationTable principal installment rates totalMonths = []) ∧
    (buildAmortizationTable principal installment rates totalMonths).length
      ≤ totalMonths.toNat ∧
    (∀ i : ℕ,
      i + 1 < (buildAmortizationTable principal installment rates totalMonths).length →
      0 < ((buildAmortizationTable principal installment rates totalMonths).getD i
          defaultRow).capitalAfter) ∧
    ((buildAmortizationTable principal installment rates totalMonths).length
        = totalMonths.toNat →
      ∀ i : ℕ,
        i + 1 < (buildAmortizationTable principal installment rates totalMonths).length →
        0 < ((buildAmortizationTable principal installment rates totalMonths).getD i
            defaultRow).capitalAfter) := by
  by_cases hg : principal ≤ 0 ∨ totalMonths ≤ 0
  · refine ⟨fun _ => ?_, ?_, ?_, ?_⟩ <;>
      simp [buildAmortizationTable, if_pos hg]
  · simp only [buildAmortizationTable, if_neg hg]
    refine ⟨fun h => absurd h hg, ?_, ?_, ?_⟩
    · exact amortLoop_length_le installment rates totalMonths.toNat 1 principal
    · exact fun i hi => amortLoop_stop installment rates totalMonths.toNat 1 principal i hi
    · exact fun _ i hi => amortLoop_stop installment rates totalMonths.toNat 1 principal i hi

/-- Witness for C6: the empty-table conjunct at `principal = -5`. -/
theorem buildAmortizationTable_shape_witness :
    buildAmortizationTable (-5) 60 [] 12 = [] :=
  (buildAmortizationTable_shape (-5) 60 [] 12).1 (Or.inl (by norm_num))

end LoanCapacity

namespace LoanCapacity

/-! ### Multi-rate loop characterization (C2, C7) -/

/-- One month of the discounted-cashflow walk, as a fold step over the
state `(pvFactorSum, discountFactor, monthsCount)`. -/
def pvStep (st : ℚ × ℚ × ℕ) (r : ℚ) : ℚ × ℚ × ℕ :=
  (st.1 + st.2.1 / (1 + r), st.2.1 / (1 + r), st.2.2 + 1)

/-- The discount factor left after walking a list of monthly rates. -/
def finalFactor : ℚ → List ℚ → ℚ
  | df, [] => df
  | df, r :: rs => finalFactor (df / (1 + r)) rs

/-- The inner month loop is a fold of `pvStep` over
`min months (totalMonths - monthsCount)` copies of the period's rate. -/
theorem multiRateInner_eq_foldl (r : ℚ) :
    ∀ (m : ℕ) (pv df : ℚ) (cnt : ℕ) (total : ℤ),
      multiRateInner r m (pv, df, cnt) total
        = List.foldl pvStep (pv, df, cnt)
            (List.replicate (min m (total.toNat - cnt)) r) := by
  intro m
  induction m with
  | zero => intro pv df cnt total; simp [multiRateInner]
  | succ n ih =>
    intro pv df cnt total
    rw [multiRateInner]
    by_cases hc : (cnt : ℤ) ≥ total
    · rw [if_pos hc]
      have h0 : total.toNat - cnt = 0 := by omega
      rw [h0]
      simp
    · rw [if_neg hc]
      have h1 : total.toNat - cnt = (total.toNat - (cnt + 1)) + 1 := by omega
      rw [ih (pv + df / (1 + r)) (df / (1 + r)) (cnt + 1) total, h1,
        Nat.succ_min_succ, List.replicate_succ, List.foldl_cons]
      rfl

/-- The month counter after a fold of `pvStep` advances by the list length. -/
theorem foldl_pvStep_cnt :
    ∀ (l : List ℚ) (pv df : ℚ) (cnt : ℕ),
      (List.foldl pvStep (pv, df, cnt) l).2.2 = cnt + l.length := by
  intro l
  induction l with
  | nil => intro pv df cnt; simp
  | cons r rs ih =>
    intro pv df cnt
    rw [List.foldl_cons]
    show (List.foldl pvStep (pv + df / (1 + r), df / (1 + r), cnt + 1) rs).2.2 = _
    rw [ih]
    simp
    omega

/-- A fold of `pvStep` accumulates the sum of the discount factors and
tracks the running factor. -/
theorem foldl_pvStep_spec :
    ∀ (l : List ℚ) (pv df : ℚ) (cnt : ℕ),
      List.foldl pvStep (pv, df, cnt) l
        = (pv + (discountFactors df l).sum, finalFactor df l, cnt + l.length) := by
  intro l
  induction l with
  | nil => intro pv df cnt; simp [discountFactors, finalFactor]
  | cons r rs ih =>
    intro pv df cnt
    rw [List.foldl_cons]
    show List.foldl pvStep (pv + df / (1 + r), df / (1 + r), cnt + 1) rs = _
    rw [ih]
    simp only [discountFactors, finalFactor, List.sum_cons, List.length_cons]
    refine congrArg₂ _ (by ring) (congrArg _ ?_)
    omega

/-- The outer period loop is a fold of `pvStep` over the flattened rate
list truncated at `totalMonths`. -/
theorem multiRateLoop_eq_foldl :
    ∀ (ps : List RatePeriod) (pv df : ℚ) (cnt : ℕ) (total : ℤ),
      multiRateLoop ps (pv, df, cnt) total
        = List.foldl pvStep (pv, df, cnt)
            ((flatRates ps).take (total.toNat - cnt)) := by
  intro ps
  induction ps with
  | nil => intro pv df cnt total; simp [multiRateLoop, flatRates]
  | cons p rest ih =>
    intro pv df cnt total
    rw [multiRateLoop]
    have hinner := multiRateInner_eq_foldl (toMonthlyRate p.rate) (p.years * 12)
      pv df cnt total
    have hcnt : (multiRateInner (toMonthlyRate p.rate) (p.years * 12)
        (pv, df, cnt) total).2.2 = cnt + min (p.years * 12) (total.toNat - cnt) := by
      rw [hinner, foldl_pvStep_cnt, List.length_replicate]
    have hflat : flatRates (p :: rest)
        = List.replicate (p.years * 12) (toMonthlyRate p.rate) ++ flatRates rest := by
      simp [flatRates]
    by_cases hc : ((multiRateInner (toMonthlyRate p.rate) (p.years * 12)
        (pv, df, cnt) total).2.2 : ℤ) ≥ total
    · rw [if_pos hc]
      rw [hcnt] at hc
      have hmin : total.toNat - cnt - (p.years * 12) = 0 := by omega
      have hmin2 : min (p.years * 12) (total.toNat - cnt)
          = min (total.toNat - cnt) (p.years * 12) := Nat.min_comm _ _
      rw [hinner, hflat, List.take_append_eq_append_take, List.length_replicate,
        hmin, List.take_zero, List.append_nil, List.take_replicate, hmin2]
    · rw [if_neg hc]
      rw [hcnt] at hc
      have hle : p.years * 12 ≤ total.toNat - cnt := by
        rcases Nat.le_total (p.years * 12) (total.toNat - cnt) with h | h
        · exact h
        · rw [Nat.min_eq_right h] at hc
          omega
      have hmin : min (p.years * 12) (total.toNat - cnt) = p.years * 12 :=
        Nat.min_eq_left hle
      have h1 : multiRateLoop rest
            (multiRateInner (toMonthlyRate p.rate) (p.years * 12) (pv, df, cnt) total)
            total
          = List.foldl pvStep
              (multiRateInner (toMonthlyRate p.rate) (p.years * 12) (pv, df, cnt) total)
              ((flatRates rest).take (total.toNat
                - (multiRateInner (toMonthlyRate p.rate) (p.years * 12)
                    (pv, df, cnt) total).2.2)) :=
        ih _ _ _ total
      have htake : (List.replicate (p.years * 12) (toMonthlyRate p.rate)).take
            (total.toNat - cnt)
          = List.replicate (p.years * 12) (toMonthlyRate p.rate) :=
        List.take_of_length_le (by rw [List.length_replicate]; exact hle)
      rw [h1, hcnt, hinner, hmin, hflat, List.take_append_eq_append_take,
        List.length_replicate, htake, List.foldl_append, Nat.sub_add_eq]

/-- The flattened rate list has one entry per covered month. -/
theorem flatRates_length (ps : List RatePeriod) :
    (flatRates ps).length = sumPeriodMonths ps := by
  induction ps with
  | nil => simp [flatRates, sumPeriodMonths]
  | cons p rest ih =>
    simp only [flatRates, sumPeriodMonths, List.flatMap_cons, List.length_append,
      List.length_replicate, List.map_cons, List.sum_cons] at ih ⊢
    omega

end LoanCapacity

namespace LoanCapacity

/-! ### C2: multi-rate capacity function -/

/-- C2: the multi-rate capacity function returns 0 when `totalMonths <= 0`,
`maxInstallment <= 0` or the period list is empty; otherwise it returns
`maxInstallment` times the sum of the monthly discount factors, where the
factor starts at 1, is divided by `1 + monthly rate of the current period`
each month, carries over across period boundaries, and accumulation covers
exactly `min totalMonths (sum of period months)` months. -/
theorem calculateLoanPrincipalWithMultipleRates_spec
    (maxInstallment : ℚ) (periods : List RatePeriod) (totalMonths : ℤ) :
    (totalMonths ≤ 0 ∨ maxInstallment ≤ 0 ∨ periods = [] →
      calculateLoanPrincipalWithMultipleRates maxInstallment periods totalMonths = 0) ∧
    (0 < totalMonths → 0 < maxInstallment → periods ≠ [] →
      calculateLoanPrincipalWithMultipleRates maxInstallment periods totalMonths
        = maxInstallment
            * (discountFactors 1 ((flatRates periods).take totalMonths.toNat)).sum ∧
      ((flatRates periods).take totalMonths.toNat).length
        = min totalMonths.toNat (sumPeriodMonths periods)) := by
  refine ⟨fun h => ?_, fun ht hm hp => ⟨?_, ?_⟩⟩
  · simp only [calculateLoanPrincipalWithMultipleRates, if_pos h]
  · have hg : ¬(totalMonths ≤ 0 ∨ maxInstallment ≤ 0 ∨ periods = []) := by
      push_neg; exact ⟨ht, hm, hp⟩
    simp only [calculateLoanPrincipalWithMultipleRates, if_neg hg]
    rw [multiRateLoop_eq_foldl periods 0 1 0 totalMonths, Nat.sub_zero,
      foldl_pvStep_spec]
    norm_num
  · rw [List.length_take, flatRates_length]

/-- Witness for C2 at `maxInstallment = 100`, one 1-year zero-rate period,
`totalMonths = 6`. -/
theorem calculateLoanPrincipalWithMultipleRates_spec_witness :
    calculateLoanPrincipalWithMultipleRates 100 [⟨1, 0⟩] 6
      = 100 * (discountFactors 1 ((flatRates [⟨1, 0⟩]).take (6 : ℤ).toNat)).sum :=
  ((calculateLoanPrincipalWithMultipleRates_spec 100 [⟨1, 0⟩] 6).2
    (by decide) (by norm_num) (by simp)).1

/-! ### Geometric-series identities (C7, C8) -/

/-- The discount factors over a constant rate list form a geometric series. -/
theorem discountFactors_replicate_sum (r : ℚ) :
    ∀ (n : ℕ) (df : ℚ),
      (discountFactors df (List.replicate n r)).sum
        = df * ∑ k in Finset.range n, ((1 + r)⁻¹) ^ (k + 1) := by
  intro n
  induction n with
  | zero => intro df; simp [discountFactors]
  | succ m ih =>
    intro df
    rw [List.replicate_succ]
    show (df / (1 + r) :: discountFactors (df / (1 + r)) (List.replicate m r)).sum = _
    rw [List.sum_cons, ih (df / (1 + r)), Finset.sum_range_succ', div_eq_mul_inv]
    rw [Finset.sum_congr rfl
      (fun k _ => pow_succ ((1 + r)⁻¹) (k + 1)), ← Finset.sum_mul]
    ring

/-- Sum of the geometric annuity series at a positive monthly rate. -/
theorem geom_annuity (r : ℚ) (hr : 0 < r) :
    ∀ n : ℕ, ∑ k in Finset.range n, ((1 + r)⁻¹) ^ (k + 1)
      = (1 - ((1 + r)⁻¹) ^ n) / r := by
  intro n
  induction n with
  | zero => simp
  | succ m ih =>
    rw [Finset.sum_range_succ, ih]
    have h1 : (1 : ℚ) + r ≠ 0 := by positivity
    have h2 : r ≠ 0 := ne_of_gt hr
    field_simp
    ring

/-- The single-rate capacity function is the installment times the sum of
the monthly discount factors of the constant monthly rate. -/
theorem singleRate_annuity (maxInstallment R : ℚ) (t : ℤ)
    (hm : 0 < maxInstallment) (ht : 0 < t) :
    calculateLoanPrincipalWithSingleRate maxInstallment R t
      = maxInstallment
          * ∑ k in Finset.range t.toNat, ((1 + toMonthlyRate R)⁻¹) ^ (k + 1) := by
  have hg : ¬(t ≤ 0 ∨ maxInstallment ≤ 0) := by push_neg; exact ⟨ht, hm⟩
  obtain ⟨n, rfl⟩ : ∃ n : ℕ, t = (n : ℤ) := ⟨t.toNat, (Int.toNat_of_nonneg ht.le).symm⟩
  rw [Int.toNat_natCast]
  by_cases hR0 : 0 < R
  · have hrate : toMonthlyRate R = R / 100 / 12 := by
      simp only [toMonthlyRate, if_pos hR0]
    have hrpos : 0 < toMonthlyRate R := by rw [hrate]; positivity
    have hrne : toMonthlyRate R ≠ 0 := ne_of_gt hrpos
    simp only [calculateLoanPrincipalWithSingleRate, if_neg hg, if_neg hrne]
    rw [geom_annuity _ hrpos, zpow_neg, zpow_natCast, ← inv_pow,
      div_div_eq_mul_div, mul_div_assoc]
  · have hrate : toMonthlyRate R = 0 := by
      simp only [toMonthlyRate, if_neg hR0]
    simp only [calculateLoanPrincipalWithSingleRate, if_neg hg, hrate, if_pos rfl,
      ite_true]
    norm_num

/-! ### C7: single-period multi-rate equals single-rate -/

/-- C7: the multi-rate capacity function on the single period
`[{years := Y, rate := R}]` with `totalMonths = Y * 12` returns the same
principal as the single-rate capacity function at rate `R` over `Y * 12`
months. -/
theorem multiRate_single_period_eq_singleRate
    (maxInstallment R : ℚ) (Y : ℕ) (hm : 0 < maxInstallment) (hR : 0 ≤ R)
    (hY : 0 < Y) :
    calculateLoanPrincipalWithMultipleRates maxInstallment [⟨Y, R⟩] ((Y : ℤ) * 12)
      = calculateLoanPrincipalWithSingleRate maxInstallment R ((Y : ℤ) * 12) := by
  have ht : (0 : ℤ) < (Y : ℤ) * 12 := by positivity
  have hg : ¬((Y : ℤ) * 12 ≤ 0 ∨ maxInstallment ≤ 0 ∨
      ([⟨Y, R⟩] : List RatePeriod) = []) := by
    push_neg
    exact ⟨ht, hm, by simp⟩
  have htoNat : ((Y : ℤ) * 12).toNat = Y * 12 := by
    have h12 : ((Y : ℤ) * 12) = ((Y * 12 : ℕ) : ℤ) := by push_cast; ring
    rw [h12, Int.toNat_natCast]
  have hflat : flatRates [⟨Y, R⟩] = List.replicate (Y * 12) (toMonthlyRate R) := by
    simp [flatRates]
  simp only [calculateLoanPrincipalWithMultipleRates, if_neg hg]
  rw [multiRateLoop_eq_foldl, Nat.sub_zero, foldl_pvStep_spec, htoNat, hflat,
    List.take_of_length_le (le_of_eq (List.length_replicate _ _)),
    discountFactors_replicate_sum,
    singleRate_annuity maxInstallment R _ hm ht, htoNat]
  norm_num

/-- Witness for C7 at `maxInstallment = 1`, `R = 0`, `Y = 1`. -/
theorem multiRate_single_period_eq_singleRate_witness :
    calculateLoanPrincipalWithMultipleRates 1 [⟨1, 0⟩] ((1 : ℕ) * 12 : ℤ)
      = calculateLoanPrincipalWithSingleRate 1 0 ((1 : ℕ) * 12 : ℤ) :=
  multiRate_single_period_eq_singleRate 1 0 1 (by norm_num) le_rfl (by norm_num)

end LoanCapacity

namespace LoanCapacity

/-! ### C8: single-rate capacity is strictly decreasing in the rate -/

/-- C8: for fixed `maxInstallment > 0` and `totalMonths > 0`, the
single-rate capacity function is monotonically decreasing in the annual
rate: for `0 <= r1 < r2` the principal at `r2` is strictly below the
principal at `r1` (hence also `<=`). -/
theorem singleRate_strict_anti (maxInstallment : ℚ) (totalMonths : ℤ)
    (r1 r2 : ℚ) (hm : 0 < maxInstallment) (ht : 0 < totalMonths)
    (h1 : 0 ≤ r1) (h12 : r1 < r2) :
    calculateLoanPrincipalWithSingleRate maxInstallment r2 totalMonths
      < calculateLoanPrincipalWithSingleRate maxInstallment r1 totalMonths := by
  rw [singleRate_annuity _ _ _ hm ht, singleRate_annuity _ _ _ hm ht]
  apply mul_lt_mul_of_pos_left _ hm
  have hs1 : 0 ≤ toMonthlyRate r1 := by
    unfold toMonthlyRate
    split
    · positivity
    · exact le_refl 0
  have hsmono : toMonthlyRate r1 < toMonthlyRate r2 := by
    by_cases h : 0 < r1
    · simp only [toMonthlyRate, if_pos h, if_pos (h.trans h12)]
      linarith
    · have hr2 : (0 : ℚ) < r2 := lt_of_le_of_lt h1 h12
      simp only [toMonthlyRate, if_neg h, if_pos hr2]
      positivity
  have hx2pos : (0 : ℚ) < (1 + toMonthlyRate r2)⁻¹ := by
    have : (0 : ℚ) < 1 + toMonthlyRate r2 := by linarith
    positivity
  have hxlt : (1 + toMonthlyRate r2)⁻¹ < (1 + toMonthlyRate r1)⁻¹ := by
    apply inv_strictAnti₀
    · linarith
    · linarith
  have hne : (Finset.range totalMonths.toNat).Nonempty := by
    rw [Finset.nonempty_range_iff]
    omega
  apply Finset.sum_lt_sum_of_nonempty hne
  intro k _
  exact pow_lt_pow_left₀ hxlt hx2pos.le (Nat.succ_ne_zero k)

/-- Witness for C8 at `maxInstallment = 1`, `totalMonths = 12`, rates 0 and 1. -/
theorem singleRate_strict_anti_witness :
    calculateLoanPrincipalWithSingleRate 1 1 12
      < calculateLoanPrincipalWithSingleRate 1 0 12 :=
  singleRate_strict_anti 1 12 0 1 (by norm_num) (by decide) le_rfl (by norm_num)

end LoanCapacity

namespace LoanCapacity

/-! ### C9: rate-vector expansion -/

/-- The inner push loop emits `min months (totalMonths - monthIdx)` copies
of the period's monthly rate and advances `monthIdx` by that amount. -/
theorem multiRatesInner_eq (rate : ℚ) :
    ∀ (m idx : ℕ) (total : ℤ),
      multiRatesInner rate m idx total
        = (List.replicate (min m (total.toNat - idx)) rate,
           idx + min m (total.toNat - idx)) := by
  intro m
  induction m with
  | zero => intro idx total; simp [multiRatesInner]
  | succ n ih =>
    intro idx total
    rw [multiRatesInner]
    by_cases hc : (idx : ℤ) < total
    · rw [if_pos hc]
      have h1 : total.toNat - idx = (total.toNat - (idx + 1)) + 1 := by omega
      rw [ih (idx + 1) total, h1, Nat.succ_min_succ, List.replicate_succ]
      simp only [Prod.mk.injEq]
      refine ⟨trivial, by omega⟩
    · rw [if_neg hc]
      have h0 : total.toNat - idx = 0 := by omega
      rw [h0]
      simp

/-- The outer period loop of the rate-vector expansion is the flattened
rate list truncated at `totalMonths`. -/
theorem multiRatesLoop_eq :
    ∀ (ps : List RatePeriod) (idx : ℕ) (total : ℤ),
      multiRatesLoop ps idx total = (flatRates ps).take (total.toNat - idx) := by
  intro ps
  induction ps with
  | nil => intro idx total; simp [multiRatesLoop, flatRates]
  | cons p rest ih =>
    intro idx total
    rw [multiRatesLoop, multiRatesInner_eq]
    by_cases hc : ((idx + min (p.years * 12) (total.toNat - idx) : ℕ) : ℤ) ≥ total
    · rw [if_pos hc]
      have hk : min (p.years * 12) (total.toNat - idx) = total.toNat - idx := by
        rcases Nat.le_total (p.years * 12) (total.toNat - idx) with h | h
        · rw [Nat.min_eq_left h] at hc ⊢
          omega
        · exact Nat.min_eq_right h
      have hle : total.toNat - idx ≤ p.years * 12 := by omega
      have hflat : flatRates (p :: rest)
          = List.replicate (p.years * 12) (toMonthlyRate p.rate) ++ flatRates rest := by
        simp [flatRates]
      rw [hk, hflat, List.take_append_eq_append_take, List.length_replicate,
        Nat.sub_eq_zero_of_le hle, List.take_zero, List.append_nil,
        List.take_replicate, Nat.min_eq_left hle]
    · rw [if_neg hc]
      have hlt : (idx : ℤ) + min (p.years * 12) (total.toNat - idx) < total := by
        push_neg at hc
        exact_mod_cast hc
      have hle : p.years * 12 ≤ total.toNat - idx := by
        rcases Nat.le_total (p.years * 12) (total.toNat - idx) with h | h
        · exact h
        · rw [Nat.min_eq_right h] at hlt
          omega
      have hmin : min (p.years * 12) (total.toNat - idx) = p.years * 12 :=
        Nat.min_eq_left hle
      have hflat : flatRates (p :: rest)
          = List.replicate (p.years * 12) (toMonthlyRate p.rate) ++ flatRates rest := by
        simp [flatRates]
      have htake : (List.replicate (p.years * 12) (toMonthlyRate p.rate)).take
            (total.toNat - idx)
          = List.replicate (p.years * 12) (toMonthlyRate p.rate) :=
        List.take_of_length_le (by rw [List.length_replicate]; exact hle)
      rw [hmin, ih, hflat, List.take_append_eq_append_take, List.length_replicate,
        htake, Nat.sub_add_eq]

/-- C9 (amended): in Single mode the rate vector has exactly `totalMonths`
entries, all equal to the single annual rate's monthly equivalent
(`annualRate/100/12`, or 0 when `annualRate <= 0`); in Multi mode it is the
period list expanded in order — `years * 12` entries per period, each
carrying that period's monthly-equivalent rate — truncated at `totalMonths`
entries, hence of length `min totalMonths (sum of period months)` rather
than always exactly `totalMonths`. -/
theorem buildMonthlyRatesArray_spec (periods : List RatePeriod)
    (singleRate : ℚ) (totalMonths : ℤ) :
    buildMonthlyRatesArray RateMode.single periods singleRate totalMonths
      = List.replicate totalMonths.toNat (toMonthlyRate singleRate) ∧
    (0 ≤ totalMonths →
      ((buildMonthlyRatesArray RateMode.single periods singleRate
          totalMonths).length : ℤ) = totalMonths) ∧
    buildMonthlyRatesArray RateMode.multi periods singleRate totalMonths
      = (flatRates periods).take totalMonths.toNat ∧
    (buildMonthlyRatesArray RateMode.multi periods singleRate totalMonths).length
      = min totalMonths.toNat (sumPeriodMonths periods) := by
  have hmulti : buildMonthlyRatesArray RateMode.multi periods singleRate totalMonths
      = (flatRates periods).take totalMonths.toNat := by
    show multiRatesLoop periods 0 totalMonths = _
    rw [multiRatesLoop_eq, Nat.sub_zero]
  refine ⟨rfl, fun h0 => ?_, hmulti, ?_⟩
  · show ((List.replicate totalMonths.toNat (toMonthlyRate singleRate)).length : ℤ) = _
    rw [List.length_replicate]
    omega
  · rw [hmulti, List.length_take, flatRates_length]

/-- Counterexample to C9 as stated: in Multi mode with one 1-year period
and `totalMonths = 24`, the expansion has 12 entries, not `totalMonths`. -/
theorem buildMonthlyRatesArray_not_always_totalMonths :
    (buildMonthlyRatesArray RateMode.multi [⟨1, 3⟩] (19 / 5) 24).length ≠ 24 := by
  norm_num [buildMonthlyRatesArray, multiRatesLoop, multiRatesInner]

/-- Witness for C9 (amended) at a 1-year period list, `totalMonths = 24`. -/
theorem buildMonthlyRatesArray_spec_witness :
    ((buildMonthlyRatesArray RateMode.single [] (19 / 5) 24).length : ℤ) = 24 :=
  (buildMonthlyRatesArray_spec [] (19 / 5) 24).2.1 (by decide)

end LoanCapacity

namespace LoanCapacity

/-! ### C4: mode-selection / fallback rule -/

/-- C4: the effective mode is Multi iff the externally chosen mode is
Multi, the period list is non-empty, and the period years sum to
`durationYears`; both the capacity computation and the rate-vector
expansion branch on this same effective mode, and in the fallback case
both use Single mode with `annualRate`. -/
theorem componentEffectiveMode_spec (rateMode : RateMode)
    (ratePeriods : List RatePeriod) (durationYears : ℕ)
    (interestRate monthlyIncome : ℚ) :
    (componentEffectiveMode rateMode ratePeriods durationYears = RateMode.multi ↔
      (rateMode = RateMode.multi ∧ ratePeriods ≠ [] ∧
        sumPeriodYears ratePeriods = durationYears)) ∧
    componentMonthlyRates rateMode ratePeriods interestRate durationYears
      = buildMonthlyRatesArray
          (componentEffectiveMode rateMode ratePeriods durationYears)
          ratePeriods interestRate (durationYears * 12) ∧
    (componentEffectiveMode rateMode ratePeriods durationYears = RateMode.multi →
      componentMaxLoanPrincipal rateMode ratePeriods interestRate monthlyIncome
          durationYears
        = (if calculateMaxMonthlyInstallment monthlyIncome ≤ 0 then 0
           else calculateLoanPrincipalWithMultipleRates
             (calculateMaxMonthlyInstallment monthlyIncome) ratePeriods
             (durationYears * 12))) ∧
    (componentEffectiveMode rateMode ratePeriods durationYears = RateMode.single →
      componentMaxLoanPrincipal rateMode ratePeriods interestRate monthlyIncome
          durationYears
        = (if calculateMaxMonthlyInstallment monthlyIncome ≤ 0 then 0
           else calculateLoanPrincipalWithSingleRate
             (calculateMaxMonthlyInstallment monthlyIncome) interestRate
             (durationYears * 12))) := by
  refine ⟨?_, rfl, ?_, ?_⟩
  · cases rateMode <;> cases ratePeriods <;>
      simp [componentEffectiveMode, usePeriods, periodsMismatch, periodsYearsTotal]
  · intro hmode
    cases hb : (usePeriods rateMode ratePeriods
        && !periodsMismatch rateMode ratePeriods durationYears) with
    | false =>
      exfalso
      simp only [componentEffectiveMode, hb] at hmode
      simp at hmode
    | true =>
      simp [componentMaxLoanPrincipal, hb]
  · intro hmode
    cases hb : (usePeriods rateMode ratePeriods
        && !periodsMismatch rateMode ratePeriods durationYears) with
    | false =>
      simp [componentMaxLoanPrincipal, hb]
    | true =>
      exfalso
      simp only [componentEffectiveMode, hb] at hmode
      simp at hmode

/-- Witness for C4: the spec's mismatch example — duration 5 years, one
4-year period, Multi requested — falls back to the single-rate capacity. -/
theorem componentEffectiveMode_spec_witness :
    componentMaxLoanPrincipal RateMode.multi [⟨4, 2⟩] (19 / 5) 2600 5
      = (if calculateMaxMonthlyInstallment 2600 ≤ 0 then 0
         else calculateLoanPrincipalWithSingleRate
           (calculateMaxMonthlyInstallment 2600) (19 / 5) (5 * 12)) :=
  (componentEffectiveMode_spec RateMode.multi [⟨4, 2⟩] 5 (19 / 5) 2600).2.2.2
    (by decide)

end LoanCapacity
